import Mathlib

/-!
Verification of the spot-FX price repository (`sysdata/fx/spotfx.py`).

A price series (`fxPrices`, a pandas `Series` in the source) is embedded as a
list of `(timestamp, value)` rows where a value of `none` stands for pandas'
`NaN` (a missing value) and a defined rate is a rational number.  Timestamps
are naturals.  The backing store (the abstract methods of `fxPricesData`,
realised by child classes outside this file's source) is an association list
from code strings to series.  The pandas operations used by the source
(`align` with outer join, `ffill`, elementwise division, `1.0 / series`,
`.empty`) are embedded by computable functions with pandas' documented
semantics on sorted unique indices.
-/

/-- A price series: rows of (timestamp, optional rate); `none` models NaN. -/
abbrev fxPrices := List (Nat × Option ℚ)

/-- `fxPrices.create_empty` from the source: the empty series. -/
def fxPrices.create_empty : fxPrices := []

/-- Modelled from the spec: the SeriesStore interface (§4.2) realised as an
association list from pair codes to their stored series. -/
abbrev SeriesStore := List (String × fxPrices)

/-- Modelled from the spec: the process-wide ReferenceCurrency constant
(`DEFAULT_CURRENCY` in `sysobjects.spot_fx_prices`, not in the given source),
"a single process-wide constant currency code (e.g. USD)". -/
def DEFAULT_CURRENCY : String := "USD"

/-- Modelled from the spec: `CurrencyPairCodec.decode` (§4.1,
`get_fx_tuple_from_code` in `sysobjects.spot_fx_prices`, not in the given
source): splits a 6-character code into two 3-letter halves, failing if the
length or charset (uppercase letters) is invalid. -/
def get_fx_tuple_from_code (code : String) : Option (String × String) :=
  if code.data.length = 6 ∧ code.data.all Char.isUpper = true then
    some (String.mk (code.data.take 3), String.mk (code.data.drop 3))
  else none

/-- Pandas semantics: value of a series at an exact timestamp of its index
(`none` when the timestamp is absent from the index or holds NaN). -/
def seriesLookup : fxPrices → Nat → Option ℚ
  | [], _ => none
  | (a, v) :: rest, t => if a = t then v else seriesLookup rest t

/-- Pandas semantics: insert a timestamp into a sorted duplicate-free index,
keeping it sorted and duplicate-free. -/
def insertTime (t : Nat) : List Nat → List Nat
  | [] => [t]
  | x :: xs =>
    if t < x then t :: x :: xs
    else if t = x then x :: xs
    else x :: insertTime t xs

/-- Pandas semantics: union of two sorted indices, as produced by
`align(..., join="outer")` on the indices of the two series. -/
def mergeIndex (xs ys : List Nat) : List Nat := xs.foldr insertTime ys

/-- Pandas semantics: reindex a series on a new index, giving NaN (`none`)
wherever the series has no value; `align` reindexes both series on the union
of their indices. -/
def reindex (s : fxPrices) (idx : List Nat) : fxPrices :=
  idx.map (fun t => (t, seriesLookup s t))

/-- Pandas semantics: forward-fill worker carrying the most recent defined
value; a NaN row receives the carry, a defined row replaces it. -/
def ffillAux : Option ℚ → fxPrices → fxPrices
  | _, [] => []
  | carry, (t, v) :: rest =>
    match v with
    | some x => (t, some x) :: ffillAux (some x) rest
    | none => (t, carry) :: ffillAux carry rest

/-- Pandas semantics: `Series.ffill()`; leading NaN rows stay NaN. -/
def ffill (s : fxPrices) : fxPrices := ffillAux none s

/-- Pandas semantics: elementwise division of optional rates; division
against NaN yields NaN, mirroring float NaN propagation. -/
def divOpt : Option ℚ → Option ℚ → Option ℚ
  | some a, some b => some (a / b)
  | _, _ => none

/-- Pandas semantics: elementwise division of two series already aligned on
the same index (the source divides the two forward-filled aligned legs). -/
def divSeries : fxPrices → fxPrices → fxPrices
  | [], _ => []
  | _, [] => []
  | (t, v1) :: r1, (_, v2) :: r2 => (t, divOpt v1 v2) :: divSeries r1 r2

/-- Pandas semantics: `1.0 / series`, the elementwise reciprocal; NaN rows
stay NaN. -/
def invSeries (s : fxPrices) : fxPrices :=
  s.map (fun r => (r.1, r.2.map (fun x => 1 / x)))

/-- `DEFAULT_RATE_SERIES` from the source: the constant series of 1.0 over
the canonical business-day calendar.  The calendar (`DEFAULT_DATES`, built
from a date range ending at the current wall-clock time) is passed in
explicitly as the list of its timestamps, as §9 of the spec directs for the
canonical-calendar configuration value. -/
def DEFAULT_RATE_SERIES (dates : List Nat) : fxPrices :=
  dates.map (fun t => (t, some (1 : ℚ)))

/-- `get_list_of_fxcodes`, abstract in the source; modelled from the spec:
`SeriesStore.list_codes`, the codes with a stored series. -/
def get_list_of_fxcodes (store : SeriesStore) : List String :=
  store.map Prod.fst

/-- `is_code_in_data` from the source: membership of a code in the list of
stored codes. -/
def is_code_in_data (store : SeriesStore) (code : String) : Bool :=
  if code ∈ get_list_of_fxcodes store then true else false

/-- `_get_fx_prices_without_checking`, abstract in the source; modelled from
the spec: `SeriesStore.read`, the raw read of a stored series (unspecified
for an absent code, here the empty series; the source only reaches it after
an `is_code_in_data` check). -/
def _get_fx_prices_without_checking (store : SeriesStore) (code : String) : fxPrices :=
  match store.find? (fun r => decide (r.1 = code)) with
  | some r => r.2
  | none => []

/-- `_add_fx_prices_without_checking_for_existing_entry`, abstract in the
source; modelled from the spec: `SeriesStore.write`, overwrite/create. -/
def _add_fx_prices_without_checking_for_existing_entry
    (store : SeriesStore) (code : String) (fx_price_data : fxPrices) : SeriesStore :=
  if code ∈ get_list_of_fxcodes store then
    store.map (fun r => if r.1 = code then (r.1, fx_price_data) else r)
  else store ++ [(code, fx_price_data)]

/-- `_delete_fx_prices_without_any_warning_be_careful`, abstract in the
source; modelled from the spec: `SeriesStore.erase`. -/
def _delete_fx_prices_without_any_warning_be_careful
    (store : SeriesStore) (code : String) : SeriesStore :=
  store.filter (fun r => decide (r.1 ≠ code))

/-- `_get_fx_prices` from the source: warn and return the empty series when
the code is absent from the stored code list, else the raw read. -/
def _get_fx_prices (store : SeriesStore) (code : String) : fxPrices :=
  if is_code_in_data store code = true then
    _get_fx_prices_without_checking store code
  else fxPrices.create_empty

/-- `_get_fx_prices_vs_default` from the source: read the series for
`currency1 + DEFAULT_CURRENCY`. -/
def _get_fx_prices_vs_default (store : SeriesStore) (currency1 : String) : fxPrices :=
  _get_fx_prices store (currency1 ++ DEFAULT_CURRENCY)

/-- `_get_standard_fx_prices` from the source.  The source re-parses the
pair code and asserts the second half is `DEFAULT_CURRENCY`; parsing is
deterministic, so the first currency is passed directly here. -/
def _get_standard_fx_prices (store : SeriesStore) (currency1 : String) : fxPrices :=
  _get_fx_prices_vs_default store currency1

/-- `_get_fx_prices_for_inversion` from the source.  The source re-parses
the pair code (asserting the first half is `DEFAULT_CURRENCY`) and uses only
the second currency, passed directly here: empty data stays empty, otherwise
the reciprocal `1.0 / raw` is returned. -/
def _get_fx_prices_for_inversion (store : SeriesStore) (currency2 : String) : fxPrices :=
  let raw_fx_data := _get_fx_prices_vs_default store currency2
  if raw_fx_data.isEmpty then raw_fx_data
  else invSeries raw_fx_data

/-- `_get_fx_cross` from the source: fetch both reference-quoted legs,
return the empty series if either is empty, else align on the outer join of
the indices, forward-fill each leg, and divide. -/
def _get_fx_cross (store : SeriesStore) (currency1 currency2 : String) : fxPrices :=
  let currency1_vs_default := _get_fx_prices_vs_default store currency1
  let currency2_vs_default := _get_fx_prices_vs_default store currency2
  if currency1_vs_default.isEmpty || currency2_vs_default.isEmpty then
    fxPrices.create_empty
  else
    let idx := mergeIndex (currency1_vs_default.map Prod.fst)
      (currency2_vs_default.map Prod.fst)
    divSeries (ffill (reindex currency1_vs_default idx))
      (ffill (reindex currency2_vs_default idx))

/-- `get_fx_prices` from the source: decode the pair code (falling back to
`DEFAULT_RATE_SERIES` on failure), then dispatch on identity, direct quote,
inversion, or cross rate. -/
def get_fx_prices (dates : List Nat) (store : SeriesStore) (fx_code : String) : fxPrices :=
  match get_fx_tuple_from_code fx_code with
  | none => DEFAULT_RATE_SERIES dates
  | some (currency1, currency2) =>
    if currency1 = currency2 then DEFAULT_RATE_SERIES dates
    else if currency2 = DEFAULT_CURRENCY then _get_standard_fx_prices store currency1
    else if currency1 = DEFAULT_CURRENCY then _get_fx_prices_for_inversion store currency2
    else _get_fx_cross store currency1 currency2

/-- `add_fx_prices` from the source.  The Python function returns `None` on
the duplicate-refusal path (explicitly) and on the success path (implicitly
by falling off the end); the first component embeds that returned value, the
second the store after the call. -/
def add_fx_prices (store : SeriesStore) (code : String) (fx_price_data : fxPrices)
    (ignore_duplication : Bool) : Option Unit × SeriesStore :=
  if is_code_in_data store code = true ∧ ignore_duplication = false then
    (none, store)
  else
    (none, _add_fx_prices_without_checking_for_existing_entry store code fx_price_data)

/-- Modelled from the spec: the outcome of the UpdateMerger (§4.4,
`fxPrices.add_rows_to_existing_data` in `sysobjects.spot_fx_prices`, not in
the given source): either the `SPIKE_IN_DATA` sentinel or a merged series. -/
inductive MergeOutcome
  | spike_marker
  | ok (merged : fxPrices)
deriving DecidableEq

/-- Modelled from the spec (§4.4): the rows of the new batch that survive
the merge, namely "every observation in `new` whose timestamp is strictly
after `old`'s latest timestamp (or all of `new` if `old` is empty)". -/
def rows_after (old new_data : fxPrices) : fxPrices :=
  match (old.map Prod.fst).getLast? with
  | none => new_data
  | some t => new_data.filter (fun r => decide (t < r.1))

/-- Modelled from the spec: `fxPrices.add_rows_to_existing_data` (§4.4, not
in the given source): if spike checking is on and the external detector
flags the batch, return the sentinel; otherwise append to `old` every row of
`new` whose timestamp is strictly after `old`'s latest timestamp (all of
`new` when `old` is empty). -/
def add_rows_to_existing_data (spike_detector : fxPrices → fxPrices → Bool)
    (old new_data : fxPrices) (check_for_spike : Bool) : MergeOutcome :=
  if check_for_spike = true ∧ spike_detector old new_data = true then
    MergeOutcome.spike_marker
  else
    MergeOutcome.ok (old ++ rows_after old new_data)

/-- The value returned by `update_fx_prices` in the source: either the
`SPIKE_IN_DATA` sentinel passed through, or an integer row count. -/
inductive UpdateOutcome
  | spike_in_data
  | rows_added (n : Nat)
deriving DecidableEq

/-- `update_fx_prices` from the source: read the current series via
`get_fx_prices`, merge the new rows, pass the spike sentinel through
unchanged, return 0 without writing when nothing was added, else persist the
merged series via `add_fx_prices` with `ignore_duplication` and return the
row delta.  The first component is the returned value, the second the store
after the call. -/
def update_fx_prices (spike_detector : fxPrices → fxPrices → Bool) (dates : List Nat)
    (store : SeriesStore) (code : String) (new_fx_prices : fxPrices)
    (check_for_spike : Bool) : UpdateOutcome × SeriesStore :=
  let old_fx_prices := get_fx_prices dates store code
  match add_rows_to_existing_data spike_detector old_fx_prices new_fx_prices
    check_for_spike with
  | MergeOutcome.spike_marker => (UpdateOutcome.spike_in_data, store)
  | MergeOutcome.ok merged_fx_prices =>
    let rows_added := merged_fx_prices.length - old_fx_prices.length
    if rows_added = 0 then (UpdateOutcome.rows_added 0, store)
    else
      (UpdateOutcome.rows_added rows_added,
        (add_fx_prices store code merged_fx_prices true).2)

/-- `delete_fx_prices` from the source: erase only when the confirmation
flag is given and the code exists; otherwise warn and leave the store. -/
def delete_fx_prices (store : SeriesStore) (code : String)
    (are_you_sure : Bool) : SeriesStore :=
  if are_you_sure = true then
    if is_code_in_data store code = true then
      _delete_fx_prices_without_any_warning_be_careful store code
    else store
  else store

/-!
Spec-side characterization of forward-filling, used to state what the cross
computation produces: the spec says each gap "is filled with the most recent
prior known value on that leg".
-/

/-- First defined value, falling back to the second argument; the shape of a
forward-fill carry update. -/
def fallbackOpt (a b : Option ℚ) : Option ℚ :=
  match a with
  | some x => some x
  | none => b

/-- Last defined lookup of `s` along a list of timestamps (later entries of
the list preferred). -/
def lookupLast (s : fxPrices) : List Nat → Option ℚ
  | [] => none
  | u :: ts => fallbackOpt (lookupLast s ts) (seriesLookup s u)

/-- Stated from the spec's words ("the most recent prior known value on that
leg"): the last defined value of `s` at a timestamp at most `t`, for a series
listed in ascending timestamp order. -/
def lastKnown : fxPrices → Nat → Option ℚ
  | [], _ => none
  | (u, v) :: rest, t => if u ≤ t then fallbackOpt (lastKnown rest t) v else lastKnown rest t

theorem fallbackOpt_none_right (a : Option ℚ) : fallbackOpt a none = a := by
  cases a <;> rfl

theorem fallbackOpt_assoc (a b c : Option ℚ) :
    fallbackOpt (fallbackOpt a b) c = fallbackOpt a (fallbackOpt b c) := by
  cases a <;> rfl

theorem mem_insertTime (a t : Nat) (l : List Nat) :
    a ∈ insertTime t l ↔ a = t ∨ a ∈ l := by
  induction l with
  | nil => simp [insertTime]
  | cons x xs ih =>
    by_cases h1 : t < x
    · simp [insertTime, if_pos h1]
    · by_cases h2 : t = x
      · subst h2
        simp [insertTime, if_neg h1]
      · simp [insertTime, if_neg h1, if_neg h2, ih]
        tauto

theorem pairwise_insertTime (t : Nat) (l : List Nat) (h : l.Pairwise (· < ·)) :
    (insertTime t l).Pairwise (· < ·) := by
  induction l with
  | nil => simp [insertTime]
  | cons x xs ih =>
    rw [List.pairwise_cons] at h
    obtain ⟨hx, hxs⟩ := h
    by_cases h1 : t < x
    · rw [insertTime, if_pos h1, List.pairwise_cons]
      constructor
      · intro y hy
        rcases List.mem_cons.mp hy with h | h
        · exact h ▸ h1
        · exact Nat.lt_trans h1 (hx y h)
      · rw [List.pairwise_cons]
        exact ⟨hx, hxs⟩
    · by_cases h2 : t = x
      · subst h2
        rw [insertTime, if_neg h1, if_pos rfl, List.pairwise_cons]
        exact ⟨hx, hxs⟩
      · have hxt : x < t := by omega
        rw [insertTime, if_neg h1, if_neg h2, List.pairwise_cons]
        constructor
        · intro y hy
          rcases (mem_insertTime y t xs).mp hy with h | h
          · exact h ▸ hxt
          · exact hx y h
        · exact ih hxs

theorem mem_mergeIndex (t : Nat) (xs ys : List Nat) :
    t ∈ mergeIndex xs ys ↔ t ∈ xs ∨ t ∈ ys := by
  induction xs with
  | nil => simp [mergeIndex]
  | cons x xs ih =>
    show t ∈ insertTime x (mergeIndex xs ys) ↔ _
    rw [mem_insertTime, ih]
    simp
    tauto

theorem pairwise_mergeIndex (xs ys : List Nat) (h : ys.Pairwise (· < ·)) :
    (mergeIndex xs ys).Pairwise (· < ·) := by
  induction xs with
  | nil => exact h
  | cons x xs ih => exact pairwise_insertTime x (mergeIndex xs ys) ih

theorem ffillAux_cons (c : Option ℚ) (t : Nat) (v : Option ℚ) (rest : fxPrices) :
    ffillAux c ((t, v) :: rest) =
      (t, fallbackOpt v c) :: ffillAux (fallbackOpt v c) rest := by
  cases v <;> rfl

theorem filter_le_eq_nil (t : Nat) (l : List Nat) (h : ∀ u ∈ l, t < u) :
    l.filter (fun u => decide (u ≤ t)) = [] := by
  rw [List.filter_eq_nil_iff]
  intro a ha
  have := h a ha
  simp only [decide_eq_true_eq]
  omega

/-- Forward-filling a reindexed series assigns, at each index timestamp `t`,
the last defined lookup among the index timestamps at most `t`, with the
initial carry as fallback. -/
theorem ffillAux_reindex (s : fxPrices) (idx : List Nat) (c : Option ℚ)
    (hidx : idx.Pairwise (· < ·)) :
    ffillAux c (reindex s idx) =
      idx.map (fun t =>
        (t, fallbackOpt (lookupLast s (idx.filter (fun u => decide (u ≤ t)))) c)) := by
  induction idx generalizing c with
  | nil => rfl
  | cons t0 rest ih =>
    rw [List.pairwise_cons] at hidx
    obtain ⟨ht0, hrest⟩ := hidx
    have hmain : reindex s (t0 :: rest) = (t0, seriesLookup s t0) :: reindex s rest := rfl
    rw [hmain, ffillAux_cons, ih (fallbackOpt (seriesLookup s t0) c) hrest]
    have hhead : (t0 :: rest).filter (fun u => decide (u ≤ t0)) = [t0] := by
      rw [List.filter_cons_of_pos (by simp), filter_le_eq_nil t0 rest ht0]
    rw [List.map_cons, hhead]
    have hheadval :
        fallbackOpt (lookupLast s [t0]) c = fallbackOpt (seriesLookup s t0) c := by
      show fallbackOpt (fallbackOpt (lookupLast s []) (seriesLookup s t0)) c = _
      rw [show lookupLast s [] = none from rfl]
      cases seriesLookup s t0 <;> rfl
    rw [hheadval]
    congr 1
    apply List.map_congr_left
    intro t ht
    have htt : t0 ≤ t := Nat.le_of_lt (ht0 t ht)
    have hfil : (t0 :: rest).filter (fun u => decide (u ≤ t)) =
        t0 :: rest.filter (fun u => decide (u ≤ t)) :=
      List.filter_cons_of_pos (by simpa)
    rw [hfil]
    show _ = (t, fallbackOpt (fallbackOpt (lookupLast s (rest.filter fun u => decide (u ≤ t))) (seriesLookup s t0)) c)
    rw [fallbackOpt_assoc]

theorem lookupLast_nil_series (ts : List Nat) : lookupLast ([] : fxPrices) ts = none := by
  induction ts with
  | nil => rfl
  | cons u ts ih =>
    show fallbackOpt (lookupLast ([] : fxPrices) ts) (seriesLookup [] u) = none
    rw [ih]
    rfl

theorem lookupLast_congr (s s' : fxPrices) (ts : List Nat)
    (h : ∀ u ∈ ts, seriesLookup s u = seriesLookup s' u) :
    lookupLast s ts = lookupLast s' ts := by
  induction ts with
  | nil => rfl
  | cons u ts ih =>
    show fallbackOpt (lookupLast s ts) (seriesLookup s u) = fallbackOpt (lookupLast s' ts) (seriesLookup s' u)
    rw [ih (fun x hx => h x (List.mem_cons_of_mem u hx)), h u (List.mem_cons_self u ts)]

theorem seriesLookup_eq_none (s : fxPrices) (u : Nat) (h : ∀ p ∈ s, p.1 ≠ u) :
    seriesLookup s u = none := by
  induction s with
  | nil => rfl
  | cons p rest ih =>
    obtain ⟨a, v⟩ := p
    show (if a = u then v else seriesLookup rest u) = none
    rw [if_neg (h (a, v) (List.mem_cons_self _ _)),
      ih (fun q hq => h q (List.mem_cons_of_mem _ hq))]

theorem lastKnown_eq_none (s : fxPrices) (t : Nat) (h : ∀ p ∈ s, t < p.1) :
    lastKnown s t = none := by
  induction s with
  | nil => rfl
  | cons p rest ih =>
    obtain ⟨u, v⟩ := p
    show (if u ≤ t then fallbackOpt (lastKnown rest t) v else lastKnown rest t) = none
    rw [if_neg (by have := h (u, v) (List.mem_cons_self _ _); omega),
      ih (fun q hq => h q (List.mem_cons_of_mem _ hq))]

/-- Under coverage (every timestamp of `s` is in the sorted index `idx`) and
ascending order of `s`, the last defined lookup along the index entries at
most `t` is exactly the spec's "most recent prior known value" at `t`. -/
theorem lookupLast_filter_eq_lastKnown (idx : List Nat) (s : fxPrices) (t : Nat)
    (hidx : idx.Pairwise (· < ·)) (hs : (s.map Prod.fst).Pairwise (· < ·))
    (hcov : ∀ p ∈ s, p.1 ∈ idx) :
    lookupLast s (idx.filter (fun u => decide (u ≤ t))) = lastKnown s t := by
  induction idx generalizing s with
  | nil =>
    cases s with
    | nil => rfl
    | cons p rest => exact absurd (hcov p (List.mem_cons_self _ _)) (List.not_mem_nil _)
  | cons u rest ih =>
    rw [List.pairwise_cons] at hidx
    obtain ⟨hu, hrest⟩ := hidx
    by_cases hut : u ≤ t
    · rw [List.filter_cons_of_pos (by simpa)]
      cases s with
      | nil =>
        rw [lookupLast_nil_series]
        rfl
      | cons p s' =>
        obtain ⟨a, v⟩ := p
        rw [List.map_cons, List.pairwise_cons] at hs
        obtain ⟨ha, hs'⟩ := hs
        by_cases hau : a = u
        · subst hau
          have hlook : seriesLookup ((a, v) :: s') a = v := by
            show (if a = a then v else seriesLookup s' a) = v
            rw [if_pos rfl]
          have hcongr : lookupLast ((a, v) :: s') (rest.filter (fun x => decide (x ≤ t))) =
              lookupLast s' (rest.filter (fun x => decide (x ≤ t))) := by
            apply lookupLast_congr
            intro x hx
            have hax : a < x := hu x (List.mem_of_mem_filter hx)
            show (if a = x then v else seriesLookup s' x) = seriesLookup s' x
            rw [if_neg (by omega)]
          have hcov' : ∀ q ∈ s', q.1 ∈ rest := by
            intro q hq
            have hmem := hcov q (List.mem_cons_of_mem _ hq)
            have haq : a < q.1 := by
              have := ha q.1 (List.mem_map_of_mem Prod.fst hq)
              exact this
            rcases List.mem_cons.mp hmem with h | h
            · omega
            · exact h
          show fallbackOpt (lookupLast ((a, v) :: s') (rest.filter fun x => decide (x ≤ t))) (seriesLookup ((a, v) :: s') a) = _
          rw [hlook, hcongr, ih s' hrest hs' hcov']
          show _ = (if a ≤ t then fallbackOpt (lastKnown s' t) v else lastKnown s' t)
          rw [if_pos hut]
        · have hmem := hcov (a, v) (List.mem_cons_self _ _)
          have hua : u < a := by
            rcases List.mem_cons.mp hmem with h | h
            · exact absurd h hau
            · exact hu a h
          have hlooknone : seriesLookup ((a, v) :: s') u = none := by
            apply seriesLookup_eq_none
            intro q hq
            rcases List.mem_cons.mp hq with h | h
            · rw [h]
              exact fun he => hau he
            · have : a < q.1 := ha q.1 (List.mem_map_of_mem Prod.fst h)
              omega
          have hcov' : ∀ q ∈ (a, v) :: s', q.1 ∈ rest := by
            intro q hq
            rcases List.mem_cons.mp hq with h | h
            · rw [h]
              rcases List.mem_cons.mp hmem with h2 | h2
              · exact absurd h2 hau
              · exact h2
            · have haq : a < q.1 := ha q.1 (List.mem_map_of_mem Prod.fst h)
              rcases List.mem_cons.mp (hcov q (List.mem_cons_of_mem _ h)) with h2 | h2
              · omega
              · exact h2
          show fallbackOpt (lookupLast ((a, v) :: s') (rest.filter fun x => decide (x ≤ t))) (seriesLookup ((a, v) :: s') u) = _
          rw [hlooknone, fallbackOpt_none_right,
            ih ((a, v) :: s') hrest (by rw [List.map_cons, List.pairwise_cons]; exact ⟨ha, hs'⟩) hcov']
    · have hfil : (u :: rest).filter (fun x => decide (x ≤ t)) = [] := by
        apply filter_le_eq_nil
        intro x hx
        rcases List.mem_cons.mp hx with h | h
        · omega
        · have := hu x h
          omega
      rw [hfil]
      show (none : Option ℚ) = _
      rw [lastKnown_eq_none]
      intro p hp
      rcases List.mem_cons.mp (hcov p hp) with h | h
      · omega
      · have := hu p.1 h
        omega

/-- Forward-filling a series reindexed on a sorted index covering all of its
timestamps realises the spec's most-recent-prior-known-value semantics. -/
theorem ffill_reindex_eq_lastKnown (s : fxPrices) (idx : List Nat)
    (hidx : idx.Pairwise (· < ·)) (hs : (s.map Prod.fst).Pairwise (· < ·))
    (hcov : ∀ p ∈ s, p.1 ∈ idx) :
    ffill (reindex s idx) = idx.map (fun t => (t, lastKnown s t)) := by
  rw [ffill, ffillAux_reindex s idx none hidx]
  apply List.map_congr_left
  intro t ht
  rw [fallbackOpt_none_right,
    lookupLast_filter_eq_lastKnown idx s t hidx hs hcov]

theorem divSeries_map_map (idx : List Nat) (f g : Nat → Option ℚ) :
    divSeries (idx.map fun t => (t, f t)) (idx.map fun t => (t, g t)) =
      idx.map (fun t => (t, divOpt (f t) (g t))) := by
  induction idx with
  | nil => rfl
  | cons t rest ih =>
    show (t, divOpt (f t) (g t)) :: divSeries _ _ = _
    rw [ih]
    rfl

theorem data_all_append (l1 l2 : List Char) (p : Char → Bool) :
    (l1 ++ l2).all p = (l1.all p && l2.all p) := List.all_append

/-- Decoding the concatenation of two valid 3-letter currency codes yields
exactly that pair of codes. -/
theorem get_fx_tuple_from_code_append (X Y : String)
    (hX : X.data.length = 3) (hY : Y.data.length = 3)
    (hXU : X.data.all Char.isUpper = true) (hYU : Y.data.all Char.isUpper = true) :
    get_fx_tuple_from_code (X ++ Y) = some (X, Y) := by
  obtain ⟨xl⟩ := X
  obtain ⟨yl⟩ := Y
  have hdata : (String.mk xl ++ String.mk yl).data = xl ++ yl := rfl
  rw [get_fx_tuple_from_code, hdata]
  rw [if_pos]
  · have htake : (xl ++ yl).take 3 = xl := by
      have := List.take_left xl yl
      rwa [hX] at this
    have hdrop : (xl ++ yl).drop 3 = yl := by
      have := List.drop_left xl yl
      rwa [hX] at this
    rw [htake, hdrop]
  · constructor
    · rw [List.length_append, hX, hY]
    · rw [data_all_append, hXU, hYU]
      rfl

/-- A successfully decoded pair code is the concatenation of its halves. -/
theorem get_fx_tuple_from_code_recompose (code : String) (c1 c2 : String)
    (h : get_fx_tuple_from_code code = some (c1, c2)) : c1 ++ c2 = code := by
  obtain ⟨l⟩ := code
  rw [get_fx_tuple_from_code] at h
  by_cases hc : (String.mk l).data.length = 6 ∧ (String.mk l).data.all Char.isUpper = true
  · rw [if_pos hc] at h
    have h1 : c1 = String.mk ((String.mk l).data.take 3) := by
      injection h with h'
      injection h' with ha hb
      exact ha.symm
    have h2 : c2 = String.mk ((String.mk l).data.drop 3) := by
      injection h with h'
      injection h' with ha hb
      exact hb.symm
    rw [h1, h2]
    show String.mk (l.take 3 ++ l.drop 3) = String.mk l
    rw [List.take_append_drop]
  · rw [if_neg hc] at h
    exact absurd h (by simp)

/-- The halves of a successfully decoded code are 3-letter uppercase codes. -/
theorem get_fx_tuple_from_code_halves (code : String) (c1 c2 : String)
    (h : get_fx_tuple_from_code code = some (c1, c2)) :
    c1.data.length = 3 ∧ c2.data.length = 3 ∧
      c1.data.all Char.isUpper = true ∧ c2.data.all Char.isUpper = true := by
  obtain ⟨l⟩ := code
  rw [get_fx_tuple_from_code] at h
  by_cases hc : (String.mk l).data.length = 6 ∧ (String.mk l).data.all Char.isUpper = true
  · rw [if_pos hc] at h
    obtain ⟨hlen, hall⟩ := hc
    have hl6 : l.length = 6 := hlen
    have h1 : c1 = String.mk (l.take 3) := by
      injection h with h'
      injection h' with ha hb
      exact ha.symm
    have h2 : c2 = String.mk (l.drop 3) := by
      injection h with h'
      injection h' with ha hb
      exact hb.symm
    have hallt : (l.take 3).all Char.isUpper = true := by
      have := data_all_append (l.take 3) (l.drop 3) Char.isUpper
      rw [List.take_append_drop] at this
      rw [this] at hall
      exact (Bool.and_eq_true _ _ |>.mp hall).1
    have halld : (l.drop 3).all Char.isUpper = true := by
      have := data_all_append (l.take 3) (l.drop 3) Char.isUpper
      rw [List.take_append_drop] at this
      rw [this] at hall
      exact (Bool.and_eq_true _ _ |>.mp hall).2
    refine ⟨?_, ?_, ?_, ?_⟩
    · rw [h1]
      show (l.take 3).length = 3
      rw [List.length_take]
      omega
    · rw [h2]
      show (l.drop 3).length = 3
      rw [List.length_drop]
      omega
    · rw [h1]
      exact hallt
    · rw [h2]
      exact halld
  · rw [if_neg hc] at h
    exact absurd h (by simp)

theorem is_code_in_data_iff (store : SeriesStore) (code : String) :
    is_code_in_data store code = true ↔ code ∈ get_list_of_fxcodes store := by
  rw [is_code_in_data]
  by_cases h : code ∈ get_list_of_fxcodes store
  · rw [if_pos h]
    simp [h]
  · rw [if_neg h]
    simp [h]

theorem is_code_in_data_eq_false_iff (store : SeriesStore) (code : String) :
    is_code_in_data store code = false ↔ code ∉ get_list_of_fxcodes store := by
  rw [← is_code_in_data_iff]
  cases is_code_in_data store code <;> simp

theorem isEmpty_eq_false_of_ne_nil (s : fxPrices) (h : s ≠ []) : s.isEmpty = false := by
  cases s with
  | nil => exact absurd rfl h
  | cons p rest => rfl

/-- A leg of a cross or inversion is missing when its reference-quoted code
is absent from the stored code list or its stored series is empty. -/
def legIsMissing (store : SeriesStore) (c : String) : Prop :=
  is_code_in_data store (c ++ DEFAULT_CURRENCY) = false ∨
    _get_fx_prices_vs_default store c = []

instance (store : SeriesStore) (c : String) : Decidable (legIsMissing store c) := by
  unfold legIsMissing
  infer_instance

theorem legIsMissing_vs_default (store : SeriesStore) (c : String)
    (h : legIsMissing store c) : _get_fx_prices_vs_default store c = [] := by
  rcases h with h | h
  · rw [_get_fx_prices_vs_default, _get_fx_prices, h]
    rfl
  · exact h

/-- Dispatch form of `get_fx_prices` once the pair code decodes. -/
theorem get_fx_prices_some (dates : List Nat) (store : SeriesStore)
    (fx_code c1 c2 : String)
    (h : get_fx_tuple_from_code fx_code = some (c1, c2)) :
    get_fx_prices dates store fx_code =
      if c1 = c2 then DEFAULT_RATE_SERIES dates
      else if c2 = DEFAULT_CURRENCY then _get_standard_fx_prices store c1
      else if c1 = DEFAULT_CURRENCY then _get_fx_prices_for_inversion store c2
      else _get_fx_cross store c1 c2 := by
  unfold get_fx_prices
  rw [h]

/-- C7: for every input string whose decoding into two currency codes fails,
`get_fx_prices` returns `DEFAULT_RATE_SERIES` (the IdentitySeries over the
canonical calendar); the model is total, so the failure never propagates.
The warning is a diagnostics-sink effect, out of the embedded state. -/
theorem malformed_code_returns_identity (dates : List Nat) (store : SeriesStore)
    (fx_code : String) (h : get_fx_tuple_from_code fx_code = none) :
    get_fx_prices dates store fx_code = DEFAULT_RATE_SERIES dates := by
  unfold get_fx_prices
  rw [h]

theorem malformed_code_returns_identity_witness :
    get_fx_tuple_from_code "eurusd" = none ∧
    get_fx_prices [0, 1] [("EURUSD", [(0, some (2 : ℚ))])] "eurusd" =
      DEFAULT_RATE_SERIES [0, 1] :=
  ⟨by decide,
    malformed_code_returns_identity [0, 1] [("EURUSD", [(0, some (2 : ℚ))])] "eurusd"
      (by decide)⟩

/-- C8: for every 3-letter uppercase currency code `X`, resolving the
identity pair `X ++ X` yields `DEFAULT_RATE_SERIES` (1.0 at every calendar
timestamp) for every store, and the result is independent of the store (no
store lookup can influence it). -/
theorem identity_pair_returns_identity_series (dates : List Nat)
    (store store' : SeriesStore) (X : String)
    (h3 : X.data.length = 3) (hU : X.data.all Char.isUpper = true) :
    get_fx_prices dates store (X ++ X) = DEFAULT_RATE_SERIES dates ∧
    get_fx_prices dates store (X ++ X) = get_fx_prices dates store' (X ++ X) := by
  have hdec := get_fx_tuple_from_code_append X X h3 h3 hU hU
  constructor
  · rw [get_fx_prices_some dates store (X ++ X) X X hdec, if_pos rfl]
  · rw [get_fx_prices_some dates store (X ++ X) X X hdec,
      get_fx_prices_some dates store' (X ++ X) X X hdec, if_pos rfl, if_pos rfl]

theorem identity_pair_returns_identity_series_witness :
    ("EUR" : String).data.length = 3 ∧
    ("EUR" : String).data.all Char.isUpper = true ∧
    (get_fx_prices [0, 7] [("EURUSD", [(0, some (2 : ℚ))])] ("EUR" ++ "EUR") =
        DEFAULT_RATE_SERIES [0, 7] ∧
      get_fx_prices [0, 7] [("EURUSD", [(0, some (2 : ℚ))])] ("EUR" ++ "EUR") =
        get_fx_prices [0, 7] [] ("EUR" ++ "EUR")) :=
  ⟨by decide, by decide,
    identity_pair_returns_identity_series [0, 7] [("EURUSD", [(0, some (2 : ℚ))])] []
      "EUR" (by decide) (by decide)⟩

/-- C5: for every 3-letter uppercase currency `X` other than the reference
currency whose reference-quoted series is non-empty, resolving
`X ++ DEFAULT_CURRENCY` returns that stored series exactly, and resolving
`DEFAULT_CURRENCY ++ X` returns its elementwise reciprocal (1 divided by
each rate, at every timestamp of the stored series). -/
theorem direct_and_inversion_resolution (dates : List Nat) (store : SeriesStore)
    (X : String) (h3 : X.data.length = 3) (hU : X.data.all Char.isUpper = true)
    (hne : X ≠ DEFAULT_CURRENCY)
    (hnonempty : _get_fx_prices_vs_default store X ≠ []) :
    get_fx_prices dates store (X ++ DEFAULT_CURRENCY) =
        _get_fx_prices_vs_default store X ∧
    get_fx_prices dates store (DEFAULT_CURRENCY ++ X) =
        invSeries (_get_fx_prices_vs_default store X) := by
  have hD3 : DEFAULT_CURRENCY.data.length = 3 := by decide
  have hDU : DEFAULT_CURRENCY.data.all Char.isUpper = true := by decide
  constructor
  · have hdec := get_fx_tuple_from_code_append X DEFAULT_CURRENCY h3 hD3 hU hDU
    rw [get_fx_prices_some dates store _ X DEFAULT_CURRENCY hdec, if_neg hne,
      if_pos rfl]
    rfl
  · have hdec := get_fx_tuple_from_code_append DEFAULT_CURRENCY X hD3 h3 hDU hU
    rw [get_fx_prices_some dates store _ DEFAULT_CURRENCY X hdec,
      if_neg (fun h => hne h.symm), if_neg hne, if_pos rfl]
    unfold _get_fx_prices_for_inversion
    simp [isEmpty_eq_false_of_ne_nil _ hnonempty]

theorem direct_and_inversion_resolution_witness :
    ("EUR" : String).data.length = 3 ∧
    ("EUR" : String).data.all Char.isUpper = true ∧
    ("EUR" : String) ≠ DEFAULT_CURRENCY ∧
    _get_fx_prices_vs_default [("EURUSD", [(0, some (2 : ℚ)), (3, some (4 : ℚ))])]
        "EUR" ≠ [] ∧
    (get_fx_prices [0] [("EURUSD", [(0, some (2 : ℚ)), (3, some (4 : ℚ))])]
          ("EUR" ++ DEFAULT_CURRENCY) =
        _get_fx_prices_vs_default
          [("EURUSD", [(0, some (2 : ℚ)), (3, some (4 : ℚ))])] "EUR" ∧
      get_fx_prices [0] [("EURUSD", [(0, some (2 : ℚ)), (3, some (4 : ℚ))])]
          (DEFAULT_CURRENCY ++ "EUR") =
        invSeries (_get_fx_prices_vs_default
          [("EURUSD", [(0, some (2 : ℚ)), (3, some (4 : ℚ))])] "EUR")) :=
  ⟨by decide, by decide, by decide, by decide,
    direct_and_inversion_resolution [0]
      [("EURUSD", [(0, some (2 : ℚ)), (3, some (4 : ℚ))])] "EUR"
      (by decide) (by decide) (by decide) (by decide)⟩

/-- C6: for every pair code requiring inversion or a cross rate, if a
required reference-quoted leg is missing (absent from the stored code list
or stored empty), the resolver returns the empty series; the model is total,
so no error is raised and no division against missing data occurs. -/
theorem missing_leg_returns_empty (dates : List Nat) (store : SeriesStore)
    (code c1 c2 : String)
    (hdec : get_fx_tuple_from_code code = some (c1, c2))
    (h2 : c2 ≠ DEFAULT_CURRENCY)
    (hcase : (c1 = DEFAULT_CURRENCY ∧ legIsMissing store c2) ∨
      (c1 ≠ DEFAULT_CURRENCY ∧ c1 ≠ c2 ∧
        (legIsMissing store c1 ∨ legIsMissing store c2))) :
    get_fx_prices dates store code = [] := by
  rw [get_fx_prices_some dates store code c1 c2 hdec]
  rcases hcase with ⟨hc1, hmiss⟩ | ⟨hc1, hc12, hmiss⟩
  · subst hc1
    rw [if_neg (fun h => h2 h.symm), if_neg h2, if_pos rfl]
    unfold _get_fx_prices_for_inversion
    rw [legIsMissing_vs_default store c2 hmiss]
    rfl
  · rw [if_neg hc12, if_neg h2, if_neg hc1]
    unfold _get_fx_cross
    rcases hmiss with hmiss | hmiss
    · simp [legIsMissing_vs_default store c1 hmiss, fxPrices.create_empty]
    · simp [legIsMissing_vs_default store c2 hmiss, fxPrices.create_empty]

theorem missing_leg_returns_empty_witness :
    get_fx_tuple_from_code "EURGBP" = some ("EUR", "GBP") ∧
    ("GBP" : String) ≠ DEFAULT_CURRENCY ∧
    (("EUR" : String) ≠ DEFAULT_CURRENCY ∧ ("EUR" : String) ≠ "GBP" ∧
      (legIsMissing [("EURUSD", [(0, some (2 : ℚ))])] "EUR" ∨
        legIsMissing [("EURUSD", [(0, some (2 : ℚ))])] "GBP")) ∧
    get_fx_prices [0] [("EURUSD", [(0, some (2 : ℚ))])] "EURGBP" = [] :=
  ⟨by decide, by decide, ⟨by decide, by decide, Or.inr (by decide)⟩,
    missing_leg_returns_empty [0] [("EURUSD", [(0, some (2 : ℚ))])] "EURGBP"
      "EUR" "GBP" (by decide) (by decide)
      (Or.inr ⟨by decide, by decide, Or.inr (by decide)⟩)⟩

/-- C3: `update_fx_prices` reads the current series via `get_fx_prices`,
merges it with the new observations, returns the row delta
`len(merged) - len(old)` — which counts exactly the rows of the new batch
strictly after the existing latest timestamp, so observations at or before
it contribute nothing — and persists the merged series via `add_fx_prices`
with `ignore_duplication` exactly when at least one row was added, leaving
the store untouched otherwise. -/
theorem update_merge_and_persist_behavior (spike_detector : fxPrices → fxPrices → Bool)
    (dates : List Nat) (store : SeriesStore) (code : String)
    (new_fx_prices : fxPrices) (check_for_spike : Bool)
    (hnospike : ¬(check_for_spike = true ∧
      spike_detector (get_fx_prices dates store code) new_fx_prices = true)) :
    update_fx_prices spike_detector dates store code new_fx_prices check_for_spike =
      (UpdateOutcome.rows_added
        (rows_after (get_fx_prices dates store code) new_fx_prices).length,
        if (rows_after (get_fx_prices dates store code) new_fx_prices).length = 0
        then store
        else (add_fx_prices store code
          (get_fx_prices dates store code ++
            rows_after (get_fx_prices dates store code) new_fx_prices) true).2) := by
  simp only [update_fx_prices, add_rows_to_existing_data]
  rw [if_neg hnospike]
  simp only [List.length_append, Nat.add_sub_cancel_left]
  by_cases h0 : (rows_after (get_fx_prices dates store code) new_fx_prices).length = 0
  · simp [h0]
  · simp [h0]

theorem update_merge_and_persist_behavior_witness :
    ¬(true = true ∧ (fun _ _ => false : fxPrices → fxPrices → Bool)
      (get_fx_prices [0] [("EURUSD", [(0, some (2 : ℚ)), (1, some (3 : ℚ))])] "EURUSD")
      [(1, some (9 : ℚ)), (2, some (5 : ℚ))] = true) ∧
    update_fx_prices (fun _ _ => false) [0]
        [("EURUSD", [(0, some (2 : ℚ)), (1, some (3 : ℚ))])] "EURUSD"
        [(1, some (9 : ℚ)), (2, some (5 : ℚ))] true =
      (UpdateOutcome.rows_added
        (rows_after
          (get_fx_prices [0] [("EURUSD", [(0, some (2 : ℚ)), (1, some (3 : ℚ))])]
            "EURUSD")
          [(1, some (9 : ℚ)), (2, some (5 : ℚ))]).length,
        if (rows_after
          (get_fx_prices [0] [("EURUSD", [(0, some (2 : ℚ)), (1, some (3 : ℚ))])]
            "EURUSD")
          [(1, some (9 : ℚ)), (2, some (5 : ℚ))]).length = 0
        then [("EURUSD", [(0, some (2 : ℚ)), (1, some (3 : ℚ))])]
        else (add_fx_prices [("EURUSD", [(0, some (2 : ℚ)), (1, some (3 : ℚ))])]
          "EURUSD"
          (get_fx_prices [0] [("EURUSD", [(0, some (2 : ℚ)), (1, some (3 : ℚ))])]
              "EURUSD" ++
            rows_after
              (get_fx_prices [0]
                [("EURUSD", [(0, some (2 : ℚ)), (1, some (3 : ℚ))])] "EURUSD")
              [(1, some (9 : ℚ)), (2, some (5 : ℚ))]) true).2) :=
  ⟨by decide,
    update_merge_and_persist_behavior (fun _ _ => false) [0]
      [("EURUSD", [(0, some (2 : ℚ)), (1, some (3 : ℚ))])] "EURUSD"
      [(1, some (9 : ℚ)), (2, some (5 : ℚ))] true (by decide)⟩

/-- C4: when spike checking is on and the external detector flags the batch,
`update_fx_prices` returns the spike sentinel with the store completely
unmodified; the sentinel is a constructor of its own, distinct from every
row count `rows_added n` and from every series (it is not an `fxPrices`
value at all, so it cannot be mistaken for the empty series). -/
theorem update_spike_returns_sentinel (spike_detector : fxPrices → fxPrices → Bool)
    (dates : List Nat) (store : SeriesStore) (code : String)
    (new_fx_prices : fxPrices) (n : Nat)
    (hspike : spike_detector (get_fx_prices dates store code) new_fx_prices = true) :
    update_fx_prices spike_detector dates store code new_fx_prices true =
      (UpdateOutcome.spike_in_data, store) ∧
    UpdateOutcome.spike_in_data ≠ UpdateOutcome.rows_added n := by
  constructor
  · simp only [update_fx_prices, add_rows_to_existing_data]
    rw [if_pos ⟨trivial, hspike⟩]
  · exact fun h => UpdateOutcome.noConfusion h

theorem update_spike_returns_sentinel_witness :
    (fun _ _ => true : fxPrices → fxPrices → Bool)
      (get_fx_prices [0] [("EURUSD", [(0, some (2 : ℚ))])] "EURUSD")
      [(1, some (100 : ℚ))] = true ∧
    (update_fx_prices (fun _ _ => true) [0] [("EURUSD", [(0, some (2 : ℚ))])]
        "EURUSD" [(1, some (100 : ℚ))] true =
      (UpdateOutcome.spike_in_data, [("EURUSD", [(0, some (2 : ℚ))])]) ∧
      UpdateOutcome.spike_in_data ≠ UpdateOutcome.rows_added 0) :=
  ⟨by decide,
    update_spike_returns_sentinel (fun _ _ => true) [0]
      [("EURUSD", [(0, some (2 : ℚ))])] "EURUSD" [(1, some (100 : ℚ))] 0 (by decide)⟩

/-- C10: calling `update_fx_prices` with a direct code `X ++ DEFAULT_CURRENCY`
absent from the stored code list and a non-empty new batch resolves the
existing series to empty, persists the entire new batch under that code
(silently creating a stored series for a code never added), and returns the
length of the new batch. -/
theorem update_creates_missing_direct_code (spike_detector : fxPrices → fxPrices → Bool)
    (dates : List Nat) (store : SeriesStore) (X : String)
    (new_fx_prices : fxPrices) (check_for_spike : Bool)
    (h3 : X.data.length = 3) (hU : X.data.all Char.isUpper = true)
    (hne : X ≠ DEFAULT_CURRENCY)
    (habsent : is_code_in_data store (X ++ DEFAULT_CURRENCY) = false)
    (hnonempty : new_fx_prices ≠ [])
    (hnospike : ¬(check_for_spike = true ∧ spike_detector [] new_fx_prices = true)) :
    get_fx_prices dates store (X ++ DEFAULT_CURRENCY) = [] ∧
    update_fx_prices spike_detector dates store (X ++ DEFAULT_CURRENCY)
        new_fx_prices check_for_spike =
      (UpdateOutcome.rows_added new_fx_prices.length,
        store ++ [(X ++ DEFAULT_CURRENCY, new_fx_prices)]) := by
  have hD3 : DEFAULT_CURRENCY.data.length = 3 := by decide
  have hDU : DEFAULT_CURRENCY.data.all Char.isUpper = true := by decide
  have hdec := get_fx_tuple_from_code_append X DEFAULT_CURRENCY h3 hD3 hU hDU
  have hold : get_fx_prices dates store (X ++ DEFAULT_CURRENCY) = [] := by
    rw [get_fx_prices_some dates store _ X DEFAULT_CURRENCY hdec, if_neg hne,
      if_pos rfl]
    simp [_get_standard_fx_prices, _get_fx_prices_vs_default, _get_fx_prices,
      habsent, fxPrices.create_empty]
  refine ⟨hold, ?_⟩
  have hmem : X ++ DEFAULT_CURRENCY ∉ get_list_of_fxcodes store :=
    (is_code_in_data_eq_false_iff store _).mp habsent
  simp only [update_fx_prices, add_rows_to_existing_data, hold]
  rw [if_neg hnospike]
  have htail : rows_after ([] : fxPrices) new_fx_prices = new_fx_prices := rfl
  simp only [htail, List.nil_append, List.length_nil, Nat.sub_zero]
  rw [if_neg (fun h => hnonempty (List.length_eq_zero.mp h))]
  simp [add_fx_prices, _add_fx_prices_without_checking_for_existing_entry,
    habsent, hmem]

theorem update_creates_missing_direct_code_witness :
    ("GBP" : String).data.length = 3 ∧
    ("GBP" : String).data.all Char.isUpper = true ∧
    ("GBP" : String) ≠ DEFAULT_CURRENCY ∧
    is_code_in_data [("EURUSD", [(0, some (2 : ℚ))])] ("GBP" ++ DEFAULT_CURRENCY) =
      false ∧
    ([(4, some (7 : ℚ)), (5, some (8 : ℚ))] : fxPrices) ≠ [] ∧
    ¬(true = true ∧ (fun _ _ => false : fxPrices → fxPrices → Bool) []
      [(4, some (7 : ℚ)), (5, some (8 : ℚ))] = true) ∧
    (get_fx_prices [0] [("EURUSD", [(0, some (2 : ℚ))])]
        ("GBP" ++ DEFAULT_CURRENCY) = [] ∧
      update_fx_prices (fun _ _ => false) [0] [("EURUSD", [(0, some (2 : ℚ))])]
          ("GBP" ++ DEFAULT_CURRENCY) [(4, some (7 : ℚ)), (5, some (8 : ℚ))] true =
        (UpdateOutcome.rows_added
            ([(4, some (7 : ℚ)), (5, some (8 : ℚ))] : fxPrices).length,
          [("EURUSD", [(0, some (2 : ℚ))])] ++
            [("GBP" ++ DEFAULT_CURRENCY, [(4, some (7 : ℚ)), (5, some (8 : ℚ))])])) :=
  ⟨by decide, by decide, by decide, by decide, by decide, by decide,
    update_creates_missing_direct_code (fun _ _ => false) [0]
      [("EURUSD", [(0, some (2 : ℚ))])] "GBP" [(4, some (7 : ℚ)), (5, some (8 : ℚ))]
      true (by decide) (by decide) (by decide) (by decide) (by decide) (by decide)⟩

/-- Store used to exhibit cross-rate behaviour on a leading gap: the AAA leg
starts at timestamp 1, the BBB leg at timestamp 0. -/
def crossGapStore : SeriesStore :=
  [("AAAUSD", [(1, some (2 : ℚ))]), ("BBBUSD", [(0, some (4 : ℚ))])]

/-- C1 counterexample: resolving the cross "AAABBB" over `crossGapStore`
yields a series that still contains a row at timestamp 0 — `(0, none)`, an
undefined (NaN) rate — even though the first leg is still unfilled there
after forward-fill (its forward-filled aligned series has no value at 0).
The claim "every such row is omitted from the returned series" is therefore
false: the division keeps the row with a missing value instead of dropping
it. -/
theorem cross_retains_unfilled_row_cex :
    (0, (none : Option ℚ)) ∈ get_fx_prices [0, 1] crossGapStore "AAABBB" ∧
    seriesLookup (ffill (reindex (_get_fx_prices_vs_default crossGapStore "AAA")
      (mergeIndex ((_get_fx_prices_vs_default crossGapStore "AAA").map Prod.fst)
        ((_get_fx_prices_vs_default crossGapStore "BBB").map Prod.fst)))) 0 =
      none := by
  constructor
  · decide
  · decide

/-- C1 amended: for every cross pair (legs distinct from each other and from
the reference currency) with non-empty, ascending reference-quoted legs, the
result has a row at every timestamp of the union of the two legs' indices
(no row is omitted); the rate at each union timestamp is the forward-filled
first leg divided by the forward-filled second leg, i.e. the quotient of the
legs' most recent prior known values, and it is undefined (`none`, pandas
NaN) — rather than the row being dropped — whenever either leg is still
unfilled there. -/
theorem cross_rate_characterization (dates : List Nat) (store : SeriesStore)
    (code c1 c2 : String)
    (hdec : get_fx_tuple_from_code code = some (c1, c2))
    (h12 : c1 ≠ c2) (h1 : c1 ≠ DEFAULT_CURRENCY) (h2 : c2 ≠ DEFAULT_CURRENCY)
    (hs1 : ((_get_fx_prices_vs_default store c1).map Prod.fst).Pairwise (· < ·))
    (hs2 : ((_get_fx_prices_vs_default store c2).map Prod.fst).Pairwise (· < ·))
    (hne1 : _get_fx_prices_vs_default store c1 ≠ [])
    (hne2 : _get_fx_prices_vs_default store c2 ≠ []) :
    get_fx_prices dates store code =
      (mergeIndex ((_get_fx_prices_vs_default store c1).map Prod.fst)
          ((_get_fx_prices_vs_default store c2).map Prod.fst)).map
        (fun t => (t, divOpt (lastKnown (_get_fx_prices_vs_default store c1) t)
          (lastKnown (_get_fx_prices_vs_default store c2) t))) := by
  rw [get_fx_prices_some dates store code c1 c2 hdec, if_neg h12, if_neg h2,
    if_neg h1]
  unfold _get_fx_cross
  simp only [isEmpty_eq_false_of_ne_nil _ hne1, isEmpty_eq_false_of_ne_nil _ hne2,
    Bool.or_self, Bool.false_eq_true, if_false]
  have hu : (mergeIndex ((_get_fx_prices_vs_default store c1).map Prod.fst)
      ((_get_fx_prices_vs_default store c2).map Prod.fst)).Pairwise (· < ·) :=
    pairwise_mergeIndex _ _ hs2
  have hcov1 : ∀ p ∈ _get_fx_prices_vs_default store c1,
      p.1 ∈ mergeIndex ((_get_fx_prices_vs_default store c1).map Prod.fst)
        ((_get_fx_prices_vs_default store c2).map Prod.fst) := by
    intro p hp
    exact (mem_mergeIndex _ _ _).mpr (Or.inl (List.mem_map_of_mem Prod.fst hp))
  have hcov2 : ∀ p ∈ _get_fx_prices_vs_default store c2,
      p.1 ∈ mergeIndex ((_get_fx_prices_vs_default store c1).map Prod.fst)
        ((_get_fx_prices_vs_default store c2).map Prod.fst) := by
    intro p hp
    exact (mem_mergeIndex _ _ _).mpr (Or.inr (List.mem_map_of_mem Prod.fst hp))
  rw [ffill_reindex_eq_lastKnown _ _ hu hs1 hcov1,
    ffill_reindex_eq_lastKnown _ _ hu hs2 hcov2, divSeries_map_map]

theorem cross_rate_characterization_witness :
    get_fx_tuple_from_code "AAABBB" = some ("AAA", "BBB") ∧
    ("AAA" : String) ≠ "BBB" ∧
    ("AAA" : String) ≠ DEFAULT_CURRENCY ∧
    ("BBB" : String) ≠ DEFAULT_CURRENCY ∧
    ((_get_fx_prices_vs_default crossGapStore "AAA").map Prod.fst).Pairwise
      (· < ·) ∧
    ((_get_fx_prices_vs_default crossGapStore "BBB").map Prod.fst).Pairwise
      (· < ·) ∧
    _get_fx_prices_vs_default crossGapStore "AAA" ≠ [] ∧
    _get_fx_prices_vs_default crossGapStore "BBB" ≠ [] ∧
    get_fx_prices [0, 1] crossGapStore "AAABBB" =
      (mergeIndex ((_get_fx_prices_vs_default crossGapStore "AAA").map Prod.fst)
          ((_get_fx_prices_vs_default crossGapStore "BBB").map Prod.fst)).map
        (fun t => (t, divOpt (lastKnown (_get_fx_prices_vs_default crossGapStore "AAA") t)
          (lastKnown (_get_fx_prices_vs_default crossGapStore "BBB") t))) :=
  ⟨by decide, by decide, by decide, by decide, by decide, by decide, by decide,
    by decide,
    cross_rate_characterization [0, 1] crossGapStore "AAABBB" "AAA" "BBB"
      (by decide) (by decide) (by decide) (by decide) (by decide) (by decide)
      (by decide) (by decide)⟩

/-- C2 counterexample: updating the cross code "AAABBB" over `crossGapStore`
persists a series under a code whose second half is not the reference
currency, and that stored series contains the row `(0, none)` which came
from the resolver's derived cross series, not from the submitted batch.  So
the facade does persist a resolver-derived, non-reference-quoted series. -/
theorem update_persists_derived_series_cex :
    is_code_in_data
      (update_fx_prices (fun _ _ => false) [] crossGapStore "AAABBB"
        [(2, some (3 : ℚ))] true).2 "AAABBB" = true ∧
    is_code_in_data crossGapStore "AAABBB" = false ∧
    String.mk (("AAABBB" : String).data.drop 3) ≠ DEFAULT_CURRENCY ∧
    (0, (none : Option ℚ)) ∈ _get_fx_prices_without_checking
      (update_fx_prices (fun _ _ => false) [] crossGapStore "AAABBB"
        [(2, some (3 : ℚ))] true).2 "AAABBB" ∧
    (0, (none : Option ℚ)) ∉ ([(2, some (3 : ℚ))] : fxPrices) := by
  refine ⟨by decide, by decide, by decide, by decide, by decide⟩

/-- C2 amended: the facade writes under whatever code it is given, so the
no-derived-series invariant holds only for reference-quoted codes: for every
direct code `X ++ DEFAULT_CURRENCY`, update either leaves the store
unchanged or persists exactly the stored series for that code extended by a
sublist of the submitted batch — never a resolver-derived series.  (For
cross or inversion codes the derived series is persisted, as the
counterexample shows.) -/
theorem update_direct_code_persists_only_merged
    (spike_detector : fxPrices → fxPrices → Bool) (dates : List Nat)
    (store : SeriesStore) (X : String) (new_fx_prices : fxPrices)
    (check_for_spike : Bool)
    (h3 : X.data.length = 3) (hU : X.data.all Char.isUpper = true)
    (hne : X ≠ DEFAULT_CURRENCY)
    (hnospike : ¬(check_for_spike = true ∧
      spike_detector (_get_fx_prices store (X ++ DEFAULT_CURRENCY))
        new_fx_prices = true)) :
    ((update_fx_prices spike_detector dates store (X ++ DEFAULT_CURRENCY)
        new_fx_prices check_for_spike).2 = store ∨
      (update_fx_prices spike_detector dates store (X ++ DEFAULT_CURRENCY)
          new_fx_prices check_for_spike).2 =
        _add_fx_prices_without_checking_for_existing_entry store
          (X ++ DEFAULT_CURRENCY)
          (_get_fx_prices store (X ++ DEFAULT_CURRENCY) ++
            rows_after (_get_fx_prices store (X ++ DEFAULT_CURRENCY))
              new_fx_prices)) ∧
    (rows_after (_get_fx_prices store (X ++ DEFAULT_CURRENCY))
      new_fx_prices).Sublist new_fx_prices := by
  have hD3 : DEFAULT_CURRENCY.data.length = 3 := by decide
  have hDU : DEFAULT_CURRENCY.data.all Char.isUpper = true := by decide
  have hdec := get_fx_tuple_from_code_append X DEFAULT_CURRENCY h3 hD3 hU hDU
  have hget : get_fx_prices dates store (X ++ DEFAULT_CURRENCY) =
      _get_fx_prices store (X ++ DEFAULT_CURRENCY) := by
    rw [get_fx_prices_some dates store _ X DEFAULT_CURRENCY hdec, if_neg hne,
      if_pos rfl]
    rfl
  constructor
  · simp only [update_fx_prices, add_rows_to_existing_data, hget]
    rw [if_neg hnospike]
    simp only [List.length_append, Nat.add_sub_cancel_left]
    by_cases h0 : (rows_after (_get_fx_prices store (X ++ DEFAULT_CURRENCY))
        new_fx_prices).length = 0
    · rw [if_pos h0]
      exact Or.inl rfl
    · rw [if_neg h0]
      refine Or.inr ?_
      simp [add_fx_prices]
  · unfold rows_after
    cases ((_get_fx_prices store (X ++ DEFAULT_CURRENCY)).map Prod.fst).getLast? with
    | none => exact List.Sublist.refl _
    | some t => exact List.filter_sublist _

theorem update_direct_code_persists_only_merged_witness :
    ("EUR" : String).data.length = 3 ∧
    ("EUR" : String).data.all Char.isUpper = true ∧
    ("EUR" : String) ≠ DEFAULT_CURRENCY ∧
    ¬(false = true ∧ (fun _ _ => false : fxPrices → fxPrices → Bool)
      (_get_fx_prices [("EURUSD", [(0, some (2 : ℚ))])] ("EUR" ++ DEFAULT_CURRENCY))
      [(1, some (3 : ℚ))] = true) ∧
    (((update_fx_prices (fun _ _ => false) [0] [("EURUSD", [(0, some (2 : ℚ))])]
          ("EUR" ++ DEFAULT_CURRENCY) [(1, some (3 : ℚ))] false).2 =
        [("EURUSD", [(0, some (2 : ℚ))])] ∨
      (update_fx_prices (fun _ _ => false) [0] [("EURUSD", [(0, some (2 : ℚ))])]
          ("EUR" ++ DEFAULT_CURRENCY) [(1, some (3 : ℚ))] false).2 =
        _add_fx_prices_without_checking_for_existing_entry
          [("EURUSD", [(0, some (2 : ℚ))])] ("EUR" ++ DEFAULT_CURRENCY)
          (_get_fx_prices [("EURUSD", [(0, some (2 : ℚ))])]
              ("EUR" ++ DEFAULT_CURRENCY) ++
            rows_after (_get_fx_prices [("EURUSD", [(0, some (2 : ℚ))])]
              ("EUR" ++ DEFAULT_CURRENCY)) [(1, some (3 : ℚ))])) ∧
      (rows_after (_get_fx_prices [("EURUSD", [(0, some (2 : ℚ))])]
          ("EUR" ++ DEFAULT_CURRENCY)) [(1, some (3 : ℚ))]).Sublist
        [(1, some (3 : ℚ))]) :=
  ⟨by decide, by decide, by decide, by decide,
    update_direct_code_persists_only_merged (fun _ _ => false) [0]
      [("EURUSD", [(0, some (2 : ℚ))])] "EUR" [(1, some (3 : ℚ))] false
      (by decide) (by decide) (by decide) (by decide)⟩

/-- Store with an existing "EURUSD" entry, for duplicate-add behaviour. -/
def dupStore : SeriesStore := [("EURUSD", [(0, some (2 : ℚ))])]

/-- C9 counterexample: `add_fx_prices` on an existing code with
`ignore_duplication = false` does leave the store unmodified, but its
returned value (`None` in the source, the first component here) is exactly
the value a successful add returns, so the caller cannot distinguish the
refusal from a success by the return value. -/
theorem add_refusal_indistinguishable_cex :
    (add_fx_prices dupStore "EURUSD" [(5, some (9 : ℚ))] false).1 =
      (add_fx_prices [] "EURUSD" [(5, some (9 : ℚ))] false).1 ∧
    (add_fx_prices dupStore "EURUSD" [(5, some (9 : ℚ))] false).2 = dupStore ∧
    (add_fx_prices [] "EURUSD" [(5, some (9 : ℚ))] false).2 =
      [("EURUSD", [(5, some (9 : ℚ))])] := by
  refine ⟨by decide, by decide, by decide⟩

/-- C9 amended: for every code already present in the store, `add_fx_prices`
with `ignore_duplication = false` leaves the store completely unmodified and
returns `None` (after reporting a warning) — the same value returned by a
successful add, so the refusal is observable only through the log and the
absence of a write, not as a distinguishable return value. -/
theorem add_duplicate_noop_returns_none (store : SeriesStore) (code : String)
    (fx_price_data : fxPrices)
    (hdup : is_code_in_data store code = true) :
    add_fx_prices store code fx_price_data false = (none, store) := by
  unfold add_fx_prices
  rw [if_pos ⟨hdup, rfl⟩]

theorem add_duplicate_noop_returns_none_witness :
    is_code_in_data dupStore "EURUSD" = true ∧
    add_fx_prices dupStore "EURUSD" [(5, some (9 : ℚ))] false = (none, dupStore) :=
  ⟨by decide,
    add_duplicate_noop_returns_none dupStore "EURUSD" [(5, some (9 : ℚ))]
      (by decide)⟩
